import Mathlib

/-!
Verification of the ScamShield rule-based risk-scoring engine
(src/scamshield.py) against its natural-language specification.

The engine is embedded shallowly: texts are lists of characters, the
keyword-table regexes (which are alternations of literals) become
case-insensitive substring tests, and `analyze_text` becomes a pure
function of the input text and the two wall-clock samples it takes.
-/

set_option maxRecDepth 8000
set_option maxHeartbeats 1600000

namespace ScamShield

/-- Characters of a text; the whole model works on lists of characters. -/
abbrev Str := List Char

/-- Character list of a string literal. -/
def S (s : String) : Str := s.data

/-- Python `str.strip` whitespace class (the ASCII part, which is all the
engine's keywords and delimiters interact with). -/
def pyWs (c : Char) : Bool :=
  c = ' ' || c = '\t' || c = '\n' || c = '\r' || c = Char.ofNat 11 || c = Char.ofNat 12

/-- Space or tab: the class of the `[ \t]+` whitespace-collapsing regex. -/
def spTab (c : Char) : Bool := c = ' ' || c = '\t'

/-- ASCII lower-casing, as `str.lower` and `re.IGNORECASE` act on the
engine's ASCII keywords (`OTP`, `bit.ly`, ...); other characters are kept. -/
def lowerAscii (c : Char) : Char :=
  if 'A' ≤ c ∧ c ≤ 'Z' then Char.ofNat (c.toNat + 32) else c

/-- Python `str.strip` on a character list. -/
def strip (l : Str) : Str :=
  ((l.dropWhile pyWs).reverse.dropWhile pyWs).reverse

/-- `re.sub(r"[ \t]+", " ", s)`: each maximal run of spaces/tabs becomes one
space (the space is emitted when the run ends). -/
def collapseWs : Str → Str
  | [] => []
  | [c] => if spTab c then [' '] else [c]
  | c :: d :: l =>
    if spTab c then
      if spTab d then collapseWs (d :: l) else ' ' :: collapseWs (d :: l)
    else c :: collapseWs (d :: l)

/-- `_normalize_text`: strip, then collapse internal space/tab runs. -/
def normalizeText (l : Str) : Str := collapseWs (strip l)

/-- The sentence-splitting class `[。\.\!\?！？\n\r]+` of SENT_SPLIT_RE. -/
def sentDelim (c : Char) : Bool :=
  c = '。' || c = '.' || c = '!' || c = '?' || c = '！' || c = '？' || c = '\n' || c = '\r'

/-- Maximal runs of non-delimiter characters: what survives of `re.split` on
the delimiter class with `+` once empty pieces are dropped. -/
def runsOf : Str → List Str
  | [] => []
  | c :: l =>
    if sentDelim c then runsOf l
    else
      match l, runsOf l with
      | [], _ => [[c]]
      | d :: _, rs =>
        if sentDelim d then [c] :: rs
        else
          match rs with
          | [] => [[c]]
          | r :: rs' => (c :: r) :: rs'

theorem runsOf_cons_delim {c : Char} (h : sentDelim c = true) (l : Str) :
    runsOf (c :: l) = runsOf l := by
  rw [runsOf.eq_def]
  simp [h]

theorem runsOf_cons_nd {c : Char} (hc : sentDelim c = false) (l : Str) :
    runsOf (c :: l) = ((c :: l).takeWhile (fun d => !sentDelim d))
      :: runsOf ((c :: l).dropWhile (fun d => !sentDelim d)) := by
  induction l generalizing c with
  | nil =>
    rw [runsOf.eq_def]
    simp [hc, List.takeWhile, List.dropWhile, runsOf]
  | cons d l' ih =>
    cases hd : sentDelim d with
    | true =>
      rw [runsOf.eq_def]
      simp [hd, List.takeWhile_cons, List.dropWhile_cons, hc]
    | false =>
      conv_lhs => rw [runsOf.eq_def]
      simp only [hc, Bool.false_eq_true, if_false, hd]
      rw [ih hd]
      simp [List.takeWhile_cons, List.dropWhile_cons, hc, hd]

/-- The merging loop of `_split_sentences`: a part of length at most 4 is
appended (with a space) to the sentence being built. -/
def mergeShort (cur : Str) : List Str → List Str
  | [] => [cur]
  | p :: ps =>
    if p.length ≤ 4 then mergeShort (cur ++ ' ' :: p) ps
    else cur :: mergeShort p ps

/-- `_split_sentences`. -/
def splitSentences (text : Str) : List Str :=
  let parts := ((runsOf text).map strip).filter (fun p => !p.isEmpty)
  match parts with
  | [] => if (strip text).isEmpty then [] else [strip text]
  | p :: ps => mergeShort p ps

/-- Python substring test `k in t` on character lists. -/
def subStr (k : Str) : Str → Bool
  | [] => k.isPrefixOf []
  | c :: t => k.isPrefixOf (c :: t) || subStr k t

/-- Substring as a proposition: `t` contains `k` contiguously. -/
def SubP (k t : Str) : Prop := ∃ a b : Str, t = a ++ (k ++ b)

theorem isPrefixOf_iff_append {k t : Str} :
    k.isPrefixOf t = true ↔ ∃ b, t = k ++ b := by
  induction k generalizing t with
  | nil => simp [List.isPrefixOf]
  | cons x xs ih =>
    cases t with
    | nil => simp [List.isPrefixOf]
    | cons y ys =>
      simp only [List.isPrefixOf, Bool.and_eq_true, beq_iff_eq, ih]
      constructor
      · rintro ⟨rfl, b, rfl⟩; exact ⟨b, rfl⟩
      · rintro ⟨b, h⟩
        cases h
        exact ⟨rfl, b, rfl⟩

theorem subStr_iff {k t : Str} : subStr k t = true ↔ SubP k t := by
  induction t with
  | nil =>
    simp only [subStr, SubP, isPrefixOf_iff_append]
    constructor
    · rintro ⟨b, h⟩; exact ⟨[], b, h⟩
    · rintro ⟨a, b, h⟩
      rcases a with _ | ⟨x, a⟩
      · exact ⟨b, h⟩
      · simp at h
  | cons c t ih =>
    simp only [subStr, Bool.or_eq_true, isPrefixOf_iff_append, ih, SubP]
    constructor
    · rintro (⟨b, h⟩ | ⟨a, b, h⟩)
      · exact ⟨[], b, h⟩
      · exact ⟨c :: a, b, by simp [h]⟩
    · rintro ⟨a, b, h⟩
      rcases a with _ | ⟨x, a⟩
      · exact Or.inl ⟨b, h⟩
      · simp only [List.cons_append, List.cons.injEq] at h
        exact Or.inr ⟨a, b, h.2⟩

/-- `_contains_any(text, kws)`: some keyword occurs (case-sensitively) in the text. -/
def containsAny (t : Str) (kws : List Str) : Bool :=
  kws.any (fun k => subStr k t)

/-- A compiled keyword-OR pattern with `re.IGNORECASE`, searched in one
sentence: some keyword occurs up to ASCII case. -/
def kwSearchCI (kws : List Str) (s : Str) : Bool :=
  kws.any (fun k => subStr (k.map lowerAscii) (s.map lowerAscii))

/-! ### Keyword tables -/

def KW_URGENCY : List Str :=
  [S "立即", S "馬上", S "立刻", S "限時", S "最後", S "倒數", S "今日內", S "今天內",
   S "24小時", S "12小時", S "逾期", S "過期", S "否則", S "不然", S "將", S "將會",
   S "否則凍結", S "否則停用", S "否則退回"]

def KW_ACCOUNT : List Str :=
  [S "帳戶異常", S "帳戶", S "帳號", S "登入", S "驗證", S "安全性", S "凍結", S "停用",
   S "解鎖", S "風險"]

def KW_OTP : List Str :=
  [S "驗證碼", S "OTP", S "一次性密碼", S "短信碼", S "簡訊碼", S "動態密碼", S "認證碼",
   S "安全碼"]

def KW_MONEY : List Str :=
  [S "匯款", S "轉帳", S "入金", S "付款", S "繳費", S "金額", S "保證金", S "手續費",
   S "解凍金", S "充值", S "儲值", S "點數"]

def KW_LOGISTICS : List Str :=
  [S "物流", S "包裹", S "宅配", S "快遞", S "投遞", S "配送", S "地址", S "收件",
   S "取件", S "運費", S "退回", S "未送達", S "派送"]

def KW_GOV_BANK : List Str :=
  [S "銀行", S "金管會", S "法院", S "檢察官", S "警察", S "165", S "戶政", S "電信",
   S "中華電信", S "健保", S "稅務", S "國稅局"]

def KW_JOB : List Str :=
  [S "在家兼職", S "打工", S "高薪", S "日領", S "刷單", S "代刷", S "任務", S "佣金",
   S "抽成", S "入群", S "群組", S "帶單", S "導師"]

def KW_INVEST : List Str :=
  [S "投資", S "飆股", S "當沖", S "老師", S "助理", S "帶你賺", S "保證獲利", S "穩賺",
   S "內線", S "入會", S "VIP", S "群", S "群組"]

def KW_ROMANCE : List Str :=
  [S "交友", S "交往", S "戀愛", S "暈船", S "寶貝", S "親愛的", S "網戀", S "視訊",
   S "裸聊", S "包養"]

def KW_THREAT : List Str :=
  [S "提告", S "法辦", S "通緝", S "拘提", S "逮捕", S "法院傳票", S "不配合", S "涉嫌",
   S "洗錢", S "刑責"]

/-! ### URL extraction (URL_RE, `_extract_urls`, `_domain_of`) -/

/-- The `[^\s<>\]]+` character class of URL_RE. -/
def urlChar (c : Char) : Bool := !(pyWs c || c = '<' || c = '>' || c = ']')

/-- Case-insensitive literal prefix test. -/
def isPreCI (k l : Str) : Bool :=
  (k.map lowerAscii).isPrefixOf (l.map lowerAscii)

/-- The shortener alternatives of URL_RE's third branch, in regex order. -/
def SHORT_PATHS : List Str :=
  [S "t.me", S "bit.ly", S "tinyurl.com", S "reurl.cc", S "pse.is", S "lihi.cc",
   S "cutt.ly", S "rebrand.ly", S "t.co", S "s.id", S "is.gd", S "soo.gd",
   S "tiny.cc", S "shorturl.at"]

/-- Match a literal (case-insensitive) followed by a non-empty greedy
`urlChar` run at the head of `l`; returns the matched text and the rest. -/
def matchLitRun (lit l : Str) : Option (Str × Str) :=
  if isPreCI lit l then
    if lit.length < lit.length + ((l.drop lit.length).takeWhile urlChar).length then
      some (l.take (lit.length + ((l.drop lit.length).takeWhile urlChar).length),
            l.drop (lit.length + ((l.drop lit.length).takeWhile urlChar).length))
    else none
  else none

/-- Try the shortener alternatives (each must be followed by a slash and a run). -/
def tryShort : List Str → Str → Option (Str × Str)
  | [], _ => none
  | d :: ds, l =>
    match matchLitRun (d ++ ['/']) l with
    | some r => some r
    | none => tryShort ds l

/-- Attempt URL_RE at the current position: `https?://run`, then `www.run`,
then `shortener/run`, in regex alternation order. -/
def tryUrlAt (l : Str) : Option (Str × Str) :=
  match matchLitRun (S "https://") l with
  | some r => some r
  | none =>
    match matchLitRun (S "http://") l with
    | some r => some r
    | none =>
      match matchLitRun (S "www.") l with
      | some r => some r
      | none => tryShort SHORT_PATHS l

theorem matchLitRun_rest_lt {lit l m rest : Str}
    (h : matchLitRun lit l = some (m, rest)) : rest.length < l.length := by
  unfold matchLitRun at h
  split at h
  · split at h
    · rename_i hlt
      simp only [Option.some.injEq, Prod.mk.injEq] at h
      rcases h with ⟨-, rfl⟩
      have hne : (l.drop lit.length).takeWhile urlChar ≠ [] := by
        intro he
        rw [he] at hlt
        simp at hlt
      have hd : l.drop lit.length ≠ [] := by
        intro he
        rw [he] at hne
        simp [List.takeWhile] at hne
      have hlen : lit.length < l.length := by
        by_contra hc
        exact hd (List.drop_eq_nil_of_le (Nat.le_of_not_lt hc))
      simp only [List.length_drop]
      omega
    · exact absurd h (by simp)
  · exact absurd h (by simp)

theorem tryShort_rest_lt {ds : List Str} {l m rest : Str}
    (h : tryShort ds l = some (m, rest)) : rest.length < l.length := by
  induction ds with
  | nil => simp [tryShort] at h
  | cons d ds ih =>
    rw [tryShort] at h
    split at h
    · rename_i p heq
      injection h with h2
      subst h2
      exact matchLitRun_rest_lt heq
    · exact ih h

theorem tryUrlAt_rest_lt {l m rest : Str}
    (h : tryUrlAt l = some (m, rest)) : rest.length < l.length := by
  rw [tryUrlAt] at h
  split at h
  · rename_i p heq
    injection h with h2; subst h2
    exact matchLitRun_rest_lt heq
  · split at h
    · rename_i p heq
      injection h with h2; subst h2
      exact matchLitRun_rest_lt heq
    · split at h
      · rename_i p heq
        injection h with h2; subst h2
        exact matchLitRun_rest_lt heq
      · exact tryShort_rest_lt h

/-- One scanning pass with explicit fuel; each step consumes at least one
character (`tryUrlAt_rest_lt`), so fuel = length is always enough. -/
def scanUrlsF : Nat → Str → List Str
  | 0, _ => []
  | _ + 1, [] => []
  | fuel + 1, c :: l =>
    match tryUrlAt (c :: l) with
    | some (m, rest) => m :: scanUrlsF fuel rest
    | none => scanUrlsF fuel l

/-- `URL_RE.finditer`: scan left to right, taking the earliest match and
resuming after it. -/
def scanUrls (t : Str) : List Str := scanUrlsF t.length t

/-- The trailing-punctuation class of `u.rstrip(").,，。；;")`. -/
def rstripSet (c : Char) : Bool :=
  c = ')' || c = '.' || c = ',' || c = '，' || c = '。' || c = '；' || c = ';'

/-- Per-match cleanup in `_extract_urls`: strip, drop trailing punctuation,
and prefix bare `www.` URLs with a scheme. -/
def cleanUrl (u : Str) : Str :=
  let u1 := strip u
  let u2 := (u1.reverse.dropWhile rstripSet).reverse
  if isPreCI (S "www.") u2 then S "http://" ++ u2 else u2

/-- The seen-set de-duplication loop of `_extract_urls` (first occurrence wins). -/
def dedupGo (seen : List Str) : List Str → List Str
  | [] => []
  | u :: us => if u ∈ seen then dedupGo seen us else u :: dedupGo (u :: seen) us

/-- All cleaned URL matches, before de-duplication. -/
def rawUrls (text : Str) : List Str := (scanUrls text).map cleanUrl

/-- `_extract_urls`. -/
def extractUrls (text : Str) : List Str := dedupGo [] (rawUrls text)

/-- `SHORTENER_DOMAINS` (a set in the source; only membership is used). -/
def SHORTENER_DOMAINS : List Str :=
  [S "bit.ly", S "t.co", S "tinyurl.com", S "reurl.cc", S "pse.is", S "lihi.cc",
   S "cutt.ly", S "rebrand.ly", S "s.id", S "is.gd", S "soo.gd", S "tiny.cc",
   S "shorturl.at", S "t.me"]

/-- `re.sub(r"^https?://", "", u, flags=re.IGNORECASE)`. -/
def dropScheme (u : Str) : Str :=
  if isPreCI (S "https://") u then u.drop 8
  else if isPreCI (S "http://") u then u.drop 7
  else u

/-- `_domain_of`. -/
def domainOf (url : Str) : Str :=
  let u1 := strip url
  let u2 := dropScheme u1
  let u3 := u2.takeWhile (fun c => c ≠ '/')
  let u4 := u3.takeWhile (fun c => c ≠ ':')
  u4.map lowerAscii

/-! ### The rule table -/

/-- A detection rule: its keyword-OR pattern stands for the compiled regex. -/
structure Rule where
  name : Str
  score : Int
  kws : List Str
  scam_types : List Str
deriving DecidableEq

def RULE6_KWS : List Str :=
  [S "bit.ly", S "tinyurl.com", S "reurl.cc", S "pse.is", S "lihi.cc", S "cutt.ly",
   S "rebrand.ly", S "t.co", S "s.id", S "is.gd", S "soo.gd", S "tiny.cc",
   S "shorturl.at"]

def RULE7_KWS : List Str :=
  [S "點擊", S "點開", S "連結", S "網址", S "填寫", S "輸入", S "登入", S "認證",
   S "驗證", S "更新資料", S "補填", S "補齊", S "重新驗證"]

def ruleUrgency : Rule :=
  ⟨S "急迫/恐嚇（限時、否則、凍結/退回）", 18, KW_URGENCY ++ KW_THREAT, [S "急迫恐嚇"]⟩

def ruleAccount : Rule :=
  ⟨S "帳戶/身份驗證壓力（帳戶異常、登入、凍結、解鎖）", 18, KW_ACCOUNT, [S "冒充客服/帳戶凍結"]⟩

def ruleOtp : Rule :=
  ⟨S "索取驗證碼/OTP（高風險）", 45, KW_OTP, [S "冒充客服/帳戶凍結"]⟩

def ruleMoney : Rule :=
  ⟨S "涉及金錢（匯款/轉帳/保證金/手續費/點數）", 30, KW_MONEY, [S "金錢要求"]⟩

def ruleLogistics : Rule :=
  ⟨S "物流/包裹通知（常見釣魚入口）", 20, KW_LOGISTICS, [S "偽物流通知"]⟩

def ruleShortlink : Rule :=
  ⟨S "短網址/可疑連結（bit.ly/tinyurl/reurl...）", 25, RULE6_KWS, [S "釣魚連結"]⟩

def ruleAskForm : Rule :=
  ⟨S "要求填寫資料/點擊連結/輸入密碼", 28, RULE7_KWS, [S "釣魚連結"]⟩

def ruleGov : Rule :=
  ⟨S "假冒政府/銀行/公權力（165、法院、警察、銀行等）", 30, KW_GOV_BANK, [S "假冒機關/銀行"]⟩

def ruleInvest : Rule :=
  ⟨S "投資飆股/老師帶單/保證獲利", 30, KW_INVEST, [S "投資詐騙"]⟩

def ruleJob : Rule :=
  ⟨S "打工/刷單/日領/佣金/入群", 35, KW_JOB, [S "打工刷單"]⟩

def ruleRomance : Rule :=
  ⟨S "交友/網戀/裸聊/包養（常見勒索前置）", 25, KW_ROMANCE, [S "交友誘騙"]⟩

def RULES : List Rule :=
  [ruleUrgency, ruleAccount, ruleOtp, ruleMoney, ruleLogistics, ruleShortlink,
   ruleAskForm, ruleGov, ruleInvest, ruleJob, ruleRomance]

/-- `_find_hits_in_sentences` for one rule: the sentences its pattern matches. -/
def ruleHits (sentences : List Str) (r : Rule) : List Str :=
  sentences.filter (fun s => kwSearchCI r.kws s)

/-- One entry of the `triggered` list. -/
structure Triggered where
  name : Str
  score : Int
  evidence_sentences : List Str
deriving DecidableEq

/-- The per-rule part of the `triggered` list, in rule-table order. -/
def ruleTriggered (sentences : List Str) : List Triggered :=
  RULES.filterMap fun r =>
    let hits := ruleHits sentences r
    if hits.isEmpty then none else some ⟨r.name, r.score, hits.take 5⟩

/-- The score accumulated by the rule loop. -/
def rulesScore (sentences : List Str) : Int :=
  (RULES.map fun r => if (ruleHits sentences r).isEmpty then 0 else r.score).sum

/-- The scam-type tags accumulated by the rule loop (before set/sort). -/
def rulesTags (sentences : List Str) : List Str :=
  ((RULES.filter fun r => !(ruleHits sentences r).isEmpty).map Rule.scam_types).flatten

/-! ### Stage, combos, gates (`_detect_stage`, `_combo_boosts`, `_hard_gates`) -/

def detectStage (t : Str) (urls : List Str) : Str :=
  let s0 := S "資訊投放"
  let s1 := if !urls.isEmpty
      || containsAny t [S "點擊", S "點開", S "連結", S "網址", S "下載", S "掃碼",
                        S "QR", S "加入群", S "入群", S "t.me/"]
    then S "誘導點擊" else s0
  let s2 := if containsAny t [S "填寫", S "輸入", S "登入", S "驗證", S "認證",
                              S "更新資料", S "補填", S "補齊", S "身分證", S "銀行帳號"]
    then S "要求資料/驗證" else s1
  let s3 := if containsAny t KW_MONEY then S "要求金錢/行動" else s2
  if containsAny t KW_OTP then S "要求金錢/行動" else s3

def ASK_CLICK_OR_FORM : List Str :=
  [S "點擊", S "點開", S "連結", S "網址", S "填寫", S "輸入", S "登入", S "認證",
   S "驗證", S "更新資料", S "補填", S "補齊"]

def hasShortB (t : Str) (urls : List Str) : Bool :=
  (urls.map domainOf).any (fun d => decide (d ∈ SHORTENER_DOMAINS))
    || containsAny t [S "tinyurl", S "bit.ly", S "reurl", S "t.me/"]

/-- `_combo_boosts`. -/
def comboBoosts (t : Str) (urls : List Str) : List (Str × Int) :=
  let hasShort := hasShortB t urls
  let hasUrl := !urls.isEmpty
  let urgency := containsAny t (KW_URGENCY ++ KW_THREAT)
  let logistics := containsAny t KW_LOGISTICS
  let account := containsAny t KW_ACCOUNT
  let otp := containsAny t KW_OTP
  let money := containsAny t KW_MONEY
  let invest := containsAny t KW_INVEST
  let job := containsAny t KW_JOB
  let gov := containsAny t KW_GOV_BANK
  let askClickOrForm := containsAny t ASK_CLICK_OR_FORM
  (if logistics && hasUrl then [(S "組合：物流通知 + 連結", (20 : Int))] else [])
  ++ (if logistics && hasShort then [(S "組合：物流通知 + 短網址（高釣魚）", (25 : Int))] else [])
  ++ (if hasShort && askClickOrForm then [(S "組合：短網址 + 要你點擊/填資料", (25 : Int))] else [])
  ++ (if account && urgency then [(S "組合：帳戶異常/凍結 + 急迫施壓", (20 : Int))] else [])
  ++ (if account && hasUrl then [(S "組合：帳戶異常/凍結 + 連結導流", (20 : Int))] else [])
  ++ (if otp && (account || urgency || hasUrl) then
        [(S "組合：索取 OTP + 帳戶/急迫/連結（極高風險）", (35 : Int))] else [])
  ++ (if gov && urgency then [(S "組合：假冒機關/銀行 + 恐嚇施壓", (25 : Int))] else [])
  ++ (if invest && (containsAny t [S "保證", S "穩賺", S "內線", S "帶單", S "老師"]
        || containsAny t [S "入群", S "群組", S "助理"]) then
        [(S "組合：投資話術 + 群組/老師帶單", (25 : Int))] else [])
  ++ (if job && (containsAny t [S "刷單", S "任務", S "佣金", S "日領", S "群組"]
        || hasUrl) then
        [(S "組合：打工刷單 + 任務/入群/導流", (30 : Int))] else [])
  ++ (if money && urgency then [(S "組合：金錢要求 + 急迫施壓", (25 : Int))] else [])

/-- `_hard_gates`: pairs of reason and minimum level. -/
def hardGates (t : Str) (urls : List Str) : List (Str × Str) :=
  let hasShort := hasShortB t urls
  let hasUrl := !urls.isEmpty
  let urgency := containsAny t (KW_URGENCY ++ KW_THREAT)
  let logistics := containsAny t KW_LOGISTICS
  let account := containsAny t KW_ACCOUNT
  let otp := containsAny t KW_OTP
  let money := containsAny t KW_MONEY
  let gov := containsAny t KW_GOV_BANK
  let askClickOrForm := containsAny t ASK_CLICK_OR_FORM
  (if hasShort && askClickOrForm then
      [(S "短網址搭配點擊/填資料，常見釣魚手法", S "medium")] else [])
  ++ (if logistics && hasUrl && urgency then
      [(S "物流通知 + 連結 + 急迫施壓，典型偽物流詐騙", S "medium")] else [])
  ++ (if account && hasUrl && urgency then
      [(S "帳戶凍結話術 + 連結導流 + 急迫施壓，風險偏高", S "high")] else [])
  ++ (if otp then [(S "索取 OTP/驗證碼 幾乎可直接判高風險", S "critical")] else [])
  ++ (if money && urgency then
      [(S "要求匯款/轉帳/費用 並施壓時間，風險偏高", S "high")] else [])
  ++ (if gov && containsAny t KW_THREAT then
      [(S "假冒機關/銀行搭配恐嚇刑責，風險偏高", S "high")] else [])

/-! ### Score finalization and level -/

/-- `_level_from_score`. -/
def levelFromScore (score : Int) : Str :=
  if score ≥ 85 then S "critical"
  else if score ≥ 60 then S "high"
  else if score ≥ 35 then S "medium"
  else S "low"

/-- `_LEVEL_ORDER` lookup. Only the four level strings ever occur; the
source dict would raise on anything else, the model returns 0. -/
def levelOrder (lv : Str) : Nat :=
  if lv = S "low" then 0
  else if lv = S "medium" then 1
  else if lv = S "high" then 2
  else if lv = S "critical" then 3
  else 0

/-- `_apply_min_level`. -/
def applyMinLevel (lv minLv : Str) : Str :=
  if levelOrder lv ≥ levelOrder minLv then lv else minLv

/-- The gate loop's effect on the level. -/
def levelAfterGates (lv : Str) (gates : List (Str × Str)) : Str :=
  gates.foldl (fun l g => applyMinLevel l g.2) lv

/-- `_clamp`. -/
def clampI (n lo hi : Int) : Int := max lo (min hi n)

/-- Number of binary digits of `n`, with fuel so the kernel can evaluate it
(the fuel `n` is enough because the digit count of a positive `n` is at
most `n`). -/
def bitLenAux : Nat → Nat → Nat
  | 0, _ => 0
  | fuel + 1, n => if n = 0 then 0 else bitLenAux fuel (n / 2) + 1

def bitLen (n : Nat) : Nat := bitLenAux n n

/-- Integer part of `n * 0.35` as Python computes it in IEEE binary64: the
double nearest 0.35 is 6305039478318694 / 2^54, the product is rounded to
53 significant bits (round half to even) and then truncated. -/
def fl35 (n : Nat) : Nat :=
  let p := n * 6305039478318694
  if p = 0 then 0
  else
    let b := bitLen p
    if b ≤ 53 then p / 2 ^ 54
    else
      let s := b - 53
      let q := p / 2 ^ s
      let r := p % 2 ^ s
      let q' := if 2 * r > 2 ^ s || (2 * r = 2 ^ s && q % 2 = 1) then q + 1 else q
      q' * 2 ^ s / 2 ^ 54

/-- Python `int()` truncation of a rational (toward zero). -/
def truncRat (q : Rat) : Int := if 0 ≤ q then ⌊q⌋ else ⌈q⌉

/-! ### Response composition -/

def makeActions (level : Str) (scamTypes : List Str) (suspiciousLinks : List Str) :
    List Str :=
  [S "先冷靜：不要急著回覆、不要照做對方指示。"]
  ++ (if suspiciousLinks.isEmpty then []
      else [S "先不要點連結：尤其是短網址（tinyurl/bit.ly/reurl/t.me 等）。"])
  ++ [S "用官方管道自行查：自己打開官方 App/官網，不要用對方給的網址。",
      S "保留證據：截圖、保存聊天紀錄、帳號、連結、轉帳資訊。"]
  ++ (if (S "冒充客服/帳戶凍結") ∈ scamTypes then
      [S "不要提供驗證碼/密碼/卡號；客服不會要求你把 OTP 念出來。"] else [])
  ++ (if (S "偽物流通知") ∈ scamTypes then
      [S "去原本購物平台/物流官方查單號，不要在陌生連結補資料。"] else [])
  ++ (if (S "投資詐騙") ∈ scamTypes ∨ (S "打工刷單") ∈ scamTypes then
      [S "不要加入群組/下載投資 App；通常都是導到詐騙池。"] else [])
  ++ (if level = S "high" ∨ level = S "critical" then
      [S "若已點擊/輸入資料：立刻改密碼、開啟兩步驟驗證、通知銀行/平台。",
       S "可撥 165 反詐騙諮詢（台灣）或向警方報案。"] else [])

def makeTemplates (scamTypes : List Str) : List Str :=
  let base :=
    [S "我會透過官方管道自行查證，不會點擊不明連結或提供任何個資。",
     S "我不會提供驗證碼/密碼/卡號，也不會依照指示轉帳或購買點數。",
     S "若你是官方單位，請提供正式公文/案件編號與可回撥的官方電話，我會自行致電確認。"]
  let b1 := if (S "偽物流通知") ∈ scamTypes then
      (S "我會到購物平台/物流官方查詢，不會在不明網址補填資料。") :: base else base
  let b2 := if (S "投資詐騙") ∈ scamTypes then
      (S "我不會加入投資群組或下載來路不明的投資 App，請勿再聯絡。") :: b1 else b1
  let b3 := if (S "打工刷單") ∈ scamTypes then
      (S "我不接受刷單/代操作/先墊款的工作，請不要再要求。") :: b2 else b2
  b3.take 6

/-! ### Sorting (Python `sorted` is a stable comparison sort, so both sorts
below coincide with it: insertion sort is stable) -/

/-- Stable descending insertion for the explanation's top-reason selection. -/
def insertDesc (x : Triggered) : List Triggered → List Triggered
  | [] => [x]
  | y :: ys => if y.score > x.score then y :: insertDesc x ys else x :: y :: ys

/-- `sorted(triggered, key=score, reverse=True)`. -/
def sortDesc : List Triggered → List Triggered
  | [] => []
  | x :: xs => insertDesc x (sortDesc xs)

/-- Code-point comparison of strings, as Python compares `str`. -/
def lexLe : Str → Str → Bool
  | [], _ => true
  | _ :: _, [] => false
  | x :: xs, y :: ys =>
    if x.toNat < y.toNat then true
    else if y.toNat < x.toNat then false
    else lexLe xs ys

def insertLex (x : Str) : List Str → List Str
  | [] => [x]
  | y :: ys => if lexLe x y then x :: y :: ys else y :: insertLex x ys

/-- `sorted(...)` on the de-duplicated scam-type tags. -/
def sortLex : List Str → List Str
  | [] => []
  | x :: xs => insertLex x (sortLex xs)

/-! ### The analysis pipeline (`analyze_text`) -/

structure AnalysisResult where
  risk_score : Int
  risk_level : Str
  scam_types : List Str
  current_stage : Str
  suspicious_links : List Str
  triggered_rules : List Triggered
  explanation : Str
  recommended_actions : List Str
  reply_templates : List Str
  meta_raw_score : Int
  meta_latency_ms : Int
  meta_url_count : Nat
deriving DecidableEq

/-- The suspicious-link filter of `analyze_text` (shortener domains). -/
def suspiciousOf (urls : List Str) : List Str :=
  urls.filter (fun u => decide (domainOf u ∈ SHORTENER_DOMAINS))

/-- Raw score: rule contributions plus combo bonuses, before compression. -/
def rawScoreOf (t : Str) : Int :=
  rulesScore (splitSentences t) + ((comboBoosts t (extractUrls t)).map Prod.snd).sum

/-- Final score: soft compression of the part above 100, then clamp to [0, 100]. -/
def finalScoreOf (t : Str) : Int :=
  clampI
    (if rawScoreOf t > 100 then 100 - (fl35 (rawScoreOf t - 100).toNat : Int)
     else rawScoreOf t) 0 100

/-- Final level: threshold mapping, then the hard gates. -/
def finalLevelOf (t : Str) : Str :=
  levelAfterGates (levelFromScore (finalScoreOf t)) (hardGates t (extractUrls t))

/-- Evidence attached to combo and gate entries:
`sentences[:2] if sentences else [text[:120]]`. -/
def evidenceDefault (t : Str) (sentences : List Str) : List Str :=
  if sentences.isEmpty then [t.take 120] else sentences.take 2

/-- The full `triggered` list: rule hits, then combo boosts, then gates. -/
def triggeredOf (t : Str) : List Triggered :=
  let sentences := splitSentences t
  let urls := extractUrls t
  ruleTriggered sentences
  ++ (comboBoosts t urls).map (fun b => ⟨b.1, b.2, evidenceDefault t sentences⟩)
  ++ (hardGates t urls).map (fun g => ⟨S "門檻：" ++ g.1, 0, evidenceDefault t sentences⟩)

/-- Python `"\n".join`. -/
def joinLines : List Str → Str
  | [] => []
  | [x] => x
  | x :: y :: xs => x ++ '\n' :: joinLines (y :: xs)

/-- The explanation string: stage plus the top reasons by contributed score. -/
def explanationOf (t : Str) : Str :=
  let top := (sortDesc (triggeredOf t)).take 4
  let reasons := (top.filter (fun x => !x.name.isEmpty)).map (fun x => S "• " ++ x.name)
  let reasons2 := if reasons.isEmpty then
      [S "• 目前沒有明顯高風險特徵，但仍建議用官方管道確認。"] else reasons
  S "判斷流程階段：" ++ detectStage t (extractUrls t) ++ S "\n我看到的重點：\n"
    ++ joinLines reasons2

/-- `sorted(set(scam_types))`. -/
def scamTypesOf (t : Str) : List Str :=
  sortLex (dedupGo [] (rulesTags (splitSentences t)))

/-- `analyze_text`. The two wall-clock samples `time.time()` takes (at entry
and before returning) are the explicit parameters `t0`, `t1` (in seconds). -/
def analyze_text (s : String) (t0 t1 : Rat) : AnalysisResult :=
  let t := normalizeText s.data
  { risk_score := finalScoreOf t
    risk_level := finalLevelOf t
    scam_types := scamTypesOf t
    current_stage := detectStage t (extractUrls t)
    suspicious_links := suspiciousOf (extractUrls t)
    triggered_rules := triggeredOf t
    explanation := explanationOf t
    recommended_actions :=
      makeActions (finalLevelOf t) (scamTypesOf t) (suspiciousOf (extractUrls t))
    reply_templates := makeTemplates (scamTypesOf t)
    meta_raw_score := rawScoreOf t
    meta_latency_ms := truncRat ((t1 - t0) * 1000)
    meta_url_count := (extractUrls t).length }

/-- The result with the only time-dependent field cleared. -/
def clearLatency (r : AnalysisResult) : AnalysisResult :=
  { r with meta_latency_ms := 0 }

/-- Modelled from the spec: src contains no phone / email / long-digit-run
extractor (only `_extract_urls` exists), so the long-digit-run entity kind of
spec §4.3 is rendered here from the spec's words: maximal runs of 10 to 19
decimal digits. -/
def specLongDigitRuns (t : Str) : List Str :=
  (digitRunsOf t).filter (fun r => decide (10 ≤ r.length ∧ r.length ≤ 19))
where
  digitRunsOf : Str → List Str
    | [] => []
    | c :: l =>
      if c.isDigit then
        match l, digitRunsOf l with
        | [], _ => [[c]]
        | d :: _, rs =>
          if d.isDigit then
            match rs with
            | [] => [[c]]
            | r :: rs' => (c :: r) :: rs'
          else [c] :: rs
      else digitRunsOf l

/-! ### Substring infrastructure -/

theorem subP_refl (k : Str) : SubP k k := ⟨[], [], by simp⟩

theorem subP_of_append {k b : Str} : SubP k (k ++ b) := ⟨[], b, rfl⟩

theorem subP_cons {k t : Str} (c : Char) (h : SubP k t) : SubP k (c :: t) := by
  obtain ⟨a, b, rfl⟩ := h
  exact ⟨c :: a, b, rfl⟩

theorem subP_append_left {k t : Str} (u : Str) (h : SubP k t) : SubP k (u ++ t) := by
  obtain ⟨a, b, rfl⟩ := h
  exact ⟨u ++ a, b, by simp⟩

theorem subP_append_right {k t : Str} (u : Str) (h : SubP k t) : SubP k (t ++ u) := by
  obtain ⟨a, b, rfl⟩ := h
  exact ⟨a, b ++ u, by simp⟩

theorem subP_trans {a b c : Str} (h1 : SubP a b) (h2 : SubP b c) : SubP a c := by
  obtain ⟨u, v, rfl⟩ := h1
  obtain ⟨x, y, rfl⟩ := h2
  exact ⟨x ++ u, v ++ y, by simp⟩

theorem subP_map {k t : Str} (f : Char → Char) (h : SubP k t) :
    SubP (k.map f) (t.map f) := by
  obtain ⟨a, b, rfl⟩ := h
  exact ⟨a.map f, b.map f, by simp⟩

theorem subP_reverse {k t : Str} (h : SubP k t) : SubP k.reverse t.reverse := by
  obtain ⟨a, b, rfl⟩ := h
  exact ⟨b.reverse, a.reverse, by simp⟩

theorem subP_ne_nil {k t : Str} (hk : k ≠ []) (h : SubP k t) : t ≠ [] := by
  obtain ⟨a, b, rfl⟩ := h
  simp_all

theorem containsAny_iff {t : Str} {kws : List Str} :
    containsAny t kws = true ↔ ∃ k ∈ kws, SubP k t := by
  simp only [containsAny, List.any_eq_true, subStr_iff]

/-- A keyword that contains no `p`-character survives `dropWhile p`. -/
theorem subP_dropWhile {p : Char → Bool} {k t : Str} (hk : k ≠ [])
    (hall : k.all (fun c => !p c) = true) (h : SubP k t) :
    SubP k (t.dropWhile p) := by
  obtain ⟨a, b, rfl⟩ := h
  induction a with
  | nil =>
    rcases k with _ | ⟨c, k'⟩
    · exact absurd rfl hk
    · have hc : p c = false := by
        have := List.all_eq_true.mp hall c (by simp)
        simpa using this
      simp only [List.nil_append, List.cons_append, List.dropWhile_cons, hc]
      exact ⟨[], b, by simp⟩
  | cons d a' ih =>
    by_cases hd : p d = true
    · simpa [List.dropWhile_cons, hd] using ih
    · simp only [List.cons_append, List.dropWhile_cons, hd]
      exact ⟨d :: a', b, by simp⟩

/-- A whitespace-free keyword survives `strip`. -/
theorem subP_strip {k t : Str} (hk : k ≠ [])
    (hall : k.all (fun c => !pyWs c) = true) (h : SubP k t) :
    SubP k (strip t) := by
  have hrev : k.reverse ≠ [] := by simpa using hk
  have hallrev : k.reverse.all (fun c => !pyWs c) = true := by
    simpa [List.all_reverse] using hall
  have h1 := subP_dropWhile hk hall h
  have h2 := subP_dropWhile hrev hallrev (subP_reverse h1)
  have h3 := subP_reverse h2
  simpa [strip] using h3

/-- `collapseWs` distributes over a space/tab-free non-empty prefix. -/
theorem collapseWs_append_clean {k b : Str}
    (hall : k.all (fun c => !spTab c) = true) :
    collapseWs (k ++ b) = k ++ collapseWs b := by
  induction k with
  | nil => simp
  | cons c k' ih =>
    have hc : spTab c = false := by
      have := List.all_eq_true.mp hall c (by simp)
      simpa using this
    have hall' : k'.all (fun c => !spTab c) = true := by
      simp only [List.all_cons, Bool.and_eq_true] at hall
      exact hall.2
    rcases hkb : k' ++ b with _ | ⟨e, rest⟩
    · obtain ⟨rfl, rfl⟩ := List.append_eq_nil.mp hkb
      simp [collapseWs, hc]
    · rw [List.cons_append, hkb, collapseWs, if_neg (by simp [hc]), ← hkb, ih hall']
      rfl

/-- A space/tab-free keyword survives whitespace collapsing. -/
theorem subP_collapseWs {k t : Str} (hk : k ≠ [])
    (hall : k.all (fun c => !spTab c) = true) (h : SubP k t) :
    SubP k (collapseWs t) := by
  obtain ⟨a, b, rfl⟩ := h
  suffices H : ∀ n (a : Str), a.length ≤ n → SubP k (collapseWs (a ++ (k ++ b))) by
    exact H a.length a (Nat.le_refl _)
  intro n
  induction n with
  | zero =>
    intro a ha
    rcases a with _ | ⟨d, a'⟩
    · rw [List.nil_append, collapseWs_append_clean hall]
      exact ⟨[], collapseWs b, rfl⟩
    · simp at ha
  | succ n ih =>
    intro a ha
    rcases a with _ | ⟨d, a'⟩
    · rw [List.nil_append, collapseWs_append_clean hall]
      exact ⟨[], collapseWs b, rfl⟩
    · rcases hrest : a' ++ (k ++ b) with _ | ⟨e, rest'⟩
      · exact absurd (List.append_eq_nil.mp ((List.append_eq_nil.mp hrest).2)).1 hk
      · have hlt : a'.length ≤ n := by
          simp only [List.length_cons] at ha
          omega
        rw [List.cons_append, hrest]
        cases hd : spTab d with
        | false =>
          rw [collapseWs, if_neg (by simp [hd]), ← hrest]
          exact subP_cons d (ih a' hlt)
        | true =>
          cases he : spTab e with
          | true =>
            rw [collapseWs, if_pos hd, if_pos he, ← hrest]
            exact ih a' hlt
          | false =>
            rw [collapseWs, if_pos hd, if_neg (by simp [he]), ← hrest]
            exact subP_cons ' ' (ih a' hlt)

/-- A whitespace-free keyword of the raw text survives `_normalize_text`. -/
theorem subP_normalize {k t : Str} (hk : k ≠ [])
    (hall : k.all (fun c => !pyWs c) = true) (h : SubP k t) :
    SubP k (normalizeText t) := by
  have hsp : k.all (fun c => !spTab c) = true := by
    rw [List.all_eq_true] at hall ⊢
    intro c hc
    have := hall c hc
    simp only [pyWs, spTab, Bool.not_eq_eq_eq_not, Bool.not_true, Bool.or_eq_false_iff] at this ⊢
    exact ⟨this.1.1.1.1.1, this.1.1.1.1.2⟩
  exact subP_collapseWs hk hsp (subP_strip hk hall h)

/-! ### A delimiter-free keyword reaches some sentence -/

theorem takeWhile_append_clean {p : Char → Bool} {k b : Str}
    (hall : k.all p = true) : (k ++ b).takeWhile p = k ++ b.takeWhile p := by
  induction k with
  | nil => simp
  | cons c k' ih =>
    have hc : p c = true := List.all_eq_true.mp hall c (by simp)
    have hall' : k'.all p = true := by
      simp only [List.all_cons, Bool.and_eq_true] at hall
      exact hall.2
    simp [List.takeWhile_cons, hc, ih hall']

/-- Prepending a non-delimiter character only grows the first run. -/
theorem runs_cons_rel {c : Char} (hc : sentDelim c = false) (rest : Str) :
    ∀ p ∈ runsOf rest, ∃ q ∈ runsOf (c :: rest), SubP p q := by
  intro p hp
  have hA : runsOf (c :: rest)
      = (c :: rest.takeWhile (fun d => !sentDelim d))
        :: runsOf (rest.dropWhile (fun d => !sentDelim d)) := by
    rw [runsOf_cons_nd hc]
    simp [List.takeWhile_cons, List.dropWhile_cons, hc]
  rcases rest with _ | ⟨e, rest'⟩
  · simp [runsOf] at hp
  · by_cases he : sentDelim e = true
    · have h1 : runsOf (e :: rest') = runsOf rest' := runsOf_cons_delim he rest'
      have h2 : (e :: rest').dropWhile (fun d => !sentDelim d) = e :: rest' := by
        simp [List.dropWhile_cons, he]
      rw [h1] at hp
      refine ⟨p, ?_, subP_refl p⟩
      rw [hA, h2, h1]
      exact List.mem_cons_of_mem _ hp
    · have he' : sentDelim e = false := by simpa using he
      have h1 : runsOf (e :: rest')
          = ((e :: rest').takeWhile (fun d => !sentDelim d))
            :: runsOf ((e :: rest').dropWhile (fun d => !sentDelim d)) :=
        runsOf_cons_nd he' rest'
      rw [h1] at hp
      rcases List.mem_cons.mp hp with h | h
      · refine ⟨c :: (e :: rest').takeWhile (fun d => !sentDelim d), ?_, ?_⟩
        · rw [hA]
          simp [List.takeWhile_cons, he]
        · rw [h]
          exact ⟨[c], [], by simp⟩
      · refine ⟨p, ?_, subP_refl p⟩
        rw [hA]
        refine List.mem_cons_of_mem _ ?_
        simpa [List.dropWhile_cons, he] using h

/-- A delimiter-free keyword of the text lies inside one of its runs. -/
theorem subP_runsOf {k : Str} (hk : k ≠ [])
    (hnd : k.all (fun c => !sentDelim c) = true) :
    ∀ t : Str, SubP k t → ∃ p ∈ runsOf t, SubP k p := by
  intro t
  induction t with
  | nil =>
    rintro ⟨a, b, heq⟩
    rcases a with _ | ⟨d, a'⟩
    · rw [List.nil_append] at heq
      exact absurd (List.append_eq_nil.mp heq.symm).1 hk
    · simp at heq
  | cons c rest ih =>
    intro h
    cases hc : sentDelim c with
    | true =>
      have hrest : SubP k rest := by
        obtain ⟨a, b, heq⟩ := h
        rcases a with _ | ⟨d, a'⟩
        · rcases k with _ | ⟨x, k'⟩
          · exact absurd rfl hk
          · exfalso
            simp only [List.nil_append, List.cons_append, List.cons.injEq] at heq
            have hx : sentDelim x = false := by
              have := List.all_eq_true.mp hnd x (by simp)
              simpa using this
            rw [heq.1] at hc
            rw [hx] at hc
            exact Bool.false_ne_true hc
        · simp only [List.cons_append, List.cons.injEq] at heq
          exact ⟨a', b, heq.2⟩
      rw [runsOf_cons_delim hc rest]
      exact ih hrest
    | false =>
      obtain ⟨a, b, heq⟩ := h
      rcases a with _ | ⟨d, a'⟩
      · -- the keyword starts the text: it is a prefix of the first run
        have hA : runsOf (c :: rest)
            = ((c :: rest).takeWhile (fun d => !sentDelim d))
              :: runsOf ((c :: rest).dropWhile (fun d => !sentDelim d)) :=
          runsOf_cons_nd hc rest
        rw [List.nil_append] at heq
        have htw : (c :: rest).takeWhile (fun d => !sentDelim d)
            = k ++ b.takeWhile (fun d => !sentDelim d) := by
          rw [heq]
          exact takeWhile_append_clean hnd
        refine ⟨(c :: rest).takeWhile (fun d => !sentDelim d), by rw [hA]; simp, ?_⟩
        rw [htw]
        exact subP_of_append
      · simp only [List.cons_append, List.cons.injEq] at heq
        obtain ⟨p, hp, hsub⟩ := ih ⟨a', b, heq.2⟩
        obtain ⟨q, hq, hsub2⟩ := runs_cons_rel hc rest p hp
        exact ⟨q, hq, subP_trans hsub hsub2⟩

/-- Every listed part reaches some merged sentence that contains it. -/
theorem mem_mergeShort : ∀ (ps : List Str) (cur q : Str), (q = cur ∨ q ∈ ps) →
    ∃ s ∈ mergeShort cur ps, SubP q s := by
  intro ps
  induction ps with
  | nil =>
    rintro cur q (rfl | h)
    · exact ⟨q, by simp [mergeShort], subP_refl q⟩
    · simp at h
  | cons p' ps' ih =>
    rintro cur q hq
    rw [mergeShort]
    by_cases hlen : p'.length ≤ 4
    · simp only [hlen, if_true]
      rcases hq with rfl | h
      · obtain ⟨s, hs, hsub⟩ := ih (q ++ ' ' :: p') (q ++ ' ' :: p') (Or.inl rfl)
        exact ⟨s, hs, subP_trans ⟨[], ' ' :: p', by simp⟩ hsub⟩
      · rcases List.mem_cons.mp h with rfl | h2
        · obtain ⟨s, hs, hsub⟩ := ih (cur ++ ' ' :: q) (cur ++ ' ' :: q) (Or.inl rfl)
          exact ⟨s, hs, subP_trans ⟨cur ++ [' '], [], by simp⟩ hsub⟩
        · obtain ⟨s, hs, hsub⟩ := ih (cur ++ ' ' :: p') q (Or.inr h2)
          exact ⟨s, hs, hsub⟩
    · simp only [hlen, if_false]
      rcases hq with rfl | h
      · exact ⟨q, by simp, subP_refl q⟩
      · obtain ⟨s, hs, hsub⟩ := ih p' q (List.mem_cons.mp h)
        exact ⟨s, List.mem_cons_of_mem _ hs, hsub⟩

/-- A keyword free of delimiters and whitespace that occurs in the text
occurs in one of the emitted sentences. -/
theorem subP_sentence {k t : Str} (hk : k ≠ [])
    (hnd : k.all (fun c => !sentDelim c) = true)
    (hws : k.all (fun c => !pyWs c) = true) (h : SubP k t) :
    ∃ s ∈ splitSentences t, SubP k s := by
  obtain ⟨p, hp, hsub⟩ := subP_runsOf hk hnd t h
  have hstrip : SubP k (strip p) := subP_strip hk hws hsub
  have hne : strip p ≠ [] := subP_ne_nil hk hstrip
  have hmem : strip p ∈ ((runsOf t).map strip).filter (fun q => !q.isEmpty) := by
    rw [List.mem_filter]
    refine ⟨List.mem_map_of_mem strip hp, ?_⟩
    simpa [List.isEmpty_iff] using hne
  rcases hparts : ((runsOf t).map strip).filter (fun q => !q.isEmpty) with _ | ⟨p0, ps⟩
  · rw [hparts] at hmem
    simp at hmem
  · have hsplit : splitSentences t = mergeShort p0 ps := by
      simp only [splitSentences]
      rw [hparts]
    rw [hparts] at hmem
    rw [hsplit]
    obtain ⟨s, hs, hsub2⟩ :=
      mem_mergeShort ps p0 (strip p) (List.mem_cons.mp hmem)
    exact ⟨s, hs, subP_trans hstrip hsub2⟩

/-- A rule whose keyword list contains a keyword occurring in some sentence fires. -/
theorem ruleHits_fires {sents : List Str} {k : Str} {r : Rule} (hk : k ∈ r.kws)
    {s : Str} (hs : s ∈ sents) (hsub : SubP k s) :
    (ruleHits sents r).isEmpty = false := by
  have hci : kwSearchCI r.kws s = true := by
    rw [kwSearchCI, List.any_eq_true]
    exact ⟨k, hk, subStr_iff.mpr (subP_map lowerAscii hsub)⟩
  have hmem : s ∈ ruleHits sents r := List.mem_filter.mpr ⟨hs, hci⟩
  rcases hh : ruleHits sents r with _ | _
  · rw [hh] at hmem
    simp at hmem
  · simp [List.isEmpty]

/-! ### Level and gate lemmas -/

theorem levelOrder_le_three (lv : Str) : levelOrder lv ≤ 3 := by
  unfold levelOrder
  repeat' split
  all_goals omega

theorem levelOrder_eq_three {lv : Str} (h : levelOrder lv = 3) : lv = S "critical" := by
  unfold levelOrder at h
  split at h
  · omega
  · split at h
    · omega
    · split at h
      · omega
      · split at h
        · assumption
        · omega

theorem levelOrder_critical : levelOrder (S "critical") = 3 := by decide

theorem applyMin_to_critical (lv : Str) :
    applyMinLevel lv (S "critical") = S "critical" := by
  unfold applyMinLevel
  rw [levelOrder_critical]
  split
  · rename_i hge
    exact levelOrder_eq_three (Nat.le_antisymm (levelOrder_le_three lv) hge)
  · rfl

theorem applyMin_of_critical (m : Str) :
    applyMinLevel (S "critical") m = S "critical" := by
  unfold applyMinLevel
  rw [levelOrder_critical]
  rw [if_pos (levelOrder_le_three m)]

theorem levelAfterGates_cons (lv : Str) (g : Str × Str) (gs : List (Str × Str)) :
    levelAfterGates lv (g :: gs) = levelAfterGates (applyMinLevel lv g.2) gs := rfl

theorem levelAfterGates_stay (gs : List (Str × Str)) :
    levelAfterGates (S "critical") gs = S "critical" := by
  induction gs with
  | nil => rfl
  | cons g gs ih => rw [levelAfterGates_cons, applyMin_of_critical]; exact ih

/-- Once some gate demands `critical`, the final level is `critical`. -/
theorem levelAfterGates_critical {gs : List (Str × Str)} (lv : Str)
    (h : ∃ g ∈ gs, g.2 = S "critical") :
    levelAfterGates lv gs = S "critical" := by
  induction gs generalizing lv with
  | nil => simp at h
  | cons g gs ih =>
    obtain ⟨g', hg', hcrit⟩ := h
    rcases List.mem_cons.mp hg' with rfl | hmem
    · rw [levelAfterGates_cons, hcrit, applyMin_to_critical]
      exact levelAfterGates_stay gs
    · rw [levelAfterGates_cons]
      exact ih (applyMinLevel lv g.2) ⟨g', hmem, hcrit⟩

/-- The OTP gate is present whenever an OTP keyword occurs in the text. -/
theorem otpGate_mem {t : Str} (urls : List Str) (h : containsAny t KW_OTP = true) :
    (S "索取 OTP/驗證碼 幾乎可直接判高風險", S "critical") ∈ hardGates t urls := by
  simp only [hardGates, h, if_true]
  simp [List.mem_append]

/-- All OTP keywords are non-empty, whitespace-free and delimiter-free. -/
theorem kwOtp_clean : ∀ k ∈ KW_OTP, k ≠ [] ∧ k.all (fun c => !pyWs c) = true
    ∧ k.all (fun c => !sentDelim c) = true := by decide

/-- C1: any input text containing an OTP-group keyword is assessed at
risk_level critical (the top level, hence "at least critical"); and the gate
operation `_apply_min_level` realises `max(level, gate_minimum)` in the level
ordering — its result is at least the incoming level and at least the gate
minimum, so a gate never lowers a level. -/
theorem C1_otp_gate_forces_critical :
    (∀ (s : String) (t0 t1 : Rat), containsAny s.data KW_OTP = true →
      (analyze_text s t0 t1).risk_level = S "critical")
    ∧ (∀ lv m : Str, levelOrder lv ≤ levelOrder (applyMinLevel lv m)
        ∧ levelOrder m ≤ levelOrder (applyMinLevel lv m)) := by
  constructor
  · intro s t0 t1 h
    obtain ⟨k, hkmem, hsub⟩ := containsAny_iff.mp h
    obtain ⟨hne, hws, hnd⟩ := kwOtp_clean k hkmem
    have hsubn : SubP k (normalizeText s.data) := subP_normalize hne hws hsub
    have hcont : containsAny (normalizeText s.data) KW_OTP = true :=
      containsAny_iff.mpr ⟨k, hkmem, hsubn⟩
    have hmem := otpGate_mem (extractUrls (normalizeText s.data)) hcont
    show finalLevelOf (normalizeText s.data) = S "critical"
    unfold finalLevelOf
    exact levelAfterGates_critical _ ⟨_, hmem, rfl⟩
  · intro lv m
    unfold applyMinLevel
    split
    · rename_i hge
      exact ⟨Nat.le_refl _, hge⟩
    · rename_i hlt
      exact ⟨Nat.le_of_lt (Nat.lt_of_not_le hlt), Nat.le_refl _⟩

/-- Witness for C1 at a concrete OTP-soliciting text. -/
theorem C1_witness :
    containsAny (S "請提供驗證碼") KW_OTP = true
    ∧ (analyze_text "請提供驗證碼" 0 0).risk_level = S "critical" :=
  ⟨by decide, C1_otp_gate_forces_critical.1 "請提供驗證碼" 0 0 (by decide)⟩

/-! ### Score lower bounds (C2) -/

theorem ruleUrgency_score : ruleUrgency.score = 18 := rfl
theorem ruleAccount_score : ruleAccount.score = 18 := rfl
theorem ruleOtp_score : ruleOtp.score = 45 := rfl
theorem ruleMoney_score : ruleMoney.score = 30 := rfl
theorem ruleLogistics_score : ruleLogistics.score = 20 := rfl
theorem ruleShortlink_score : ruleShortlink.score = 25 := rfl
theorem ruleAskForm_score : ruleAskForm.score = 28 := rfl
theorem ruleGov_score : ruleGov.score = 30 := rfl
theorem ruleInvest_score : ruleInvest.score = 30 := rfl
theorem ruleJob_score : ruleJob.score = 35 := rfl
theorem ruleRomance_score : ruleRomance.score = 25 := rfl

/-- If the urgency, OTP and money rules all fire, the rule loop contributes
at least 18 + 45 + 30. -/
theorem rulesScore_lb {sents : List Str}
    (h1 : (ruleHits sents ruleUrgency).isEmpty = false)
    (h3 : (ruleHits sents ruleOtp).isEmpty = false)
    (h4 : (ruleHits sents ruleMoney).isEmpty = false) :
    93 ≤ rulesScore sents := by
  simp only [rulesScore, RULES, List.map_cons, List.map_nil, List.sum_cons,
    List.sum_nil, h1, h3, h4, Bool.false_eq_true, if_false,
    ruleUrgency_score, ruleAccount_score, ruleOtp_score, ruleMoney_score,
    ruleLogistics_score, ruleShortlink_score, ruleAskForm_score, ruleGov_score,
    ruleInvest_score, ruleJob_score, ruleRomance_score]
  split_ifs <;> omega

/-- The sum of the per-segment bonuses of a conditional singleton. -/
theorem mapSnd_ite (c : Prop) [Decidable c] (p : Str × Int) :
    (((if c then [p] else []).map Prod.snd)).sum = if c then p.2 else 0 := by
  split <;> simp

/-- With money, OTP and urgency all present, the combo loop adds at least
35 + 25. -/
theorem boostsSum_lb {t : Str} (urls : List Str)
    (hotp : containsAny t KW_OTP = true)
    (hurg : containsAny t (KW_URGENCY ++ KW_THREAT) = true)
    (hmoney : containsAny t KW_MONEY = true) :
    60 ≤ ((comboBoosts t urls).map Prod.snd).sum := by
  simp only [comboBoosts, List.map_append, List.sum_append, mapSnd_ite,
    hotp, hurg, hmoney, Bool.true_and, Bool.and_true, Bool.or_true, Bool.true_or]
  split_ifs <;> omega

theorem kwMoney_clean : ∀ k ∈ KW_MONEY, k ≠ [] ∧ k.all (fun c => !pyWs c) = true
    ∧ k.all (fun c => !sentDelim c) = true := by decide

theorem kwUrgency_clean : ∀ k ∈ KW_URGENCY, k ≠ [] ∧ k.all (fun c => !pyWs c) = true
    ∧ k.all (fun c => !sentDelim c) = true := by decide

/-- C2 (amended): a text containing transfer-request, OTP-request and urgency
keywords yields a pre-compression raw score (`meta.raw_score`) of at least 95;
combos only add bonuses (no `max(score, floor)` mechanism exists in the code),
and the post-compression `risk_score` can drop below 95. -/
theorem C2_money_otp_urgency_raw_score :
    ∀ (s : String) (t0 t1 : Rat),
      containsAny s.data KW_MONEY = true →
      containsAny s.data KW_OTP = true →
      containsAny s.data KW_URGENCY = true →
      95 ≤ (analyze_text s t0 t1).meta_raw_score := by
  intro s t0 t1 hm ho hu
  obtain ⟨km, hkm, hsm⟩ := containsAny_iff.mp hm
  obtain ⟨ko, hko, hso⟩ := containsAny_iff.mp ho
  obtain ⟨ku, hku, hsu⟩ := containsAny_iff.mp hu
  obtain ⟨hmne, hmws, hmnd⟩ := kwMoney_clean km hkm
  obtain ⟨hone, hows, hond⟩ := kwOtp_clean ko hko
  obtain ⟨hune, huws, hund⟩ := kwUrgency_clean ku hku
  have hsmn : SubP km (normalizeText s.data) := subP_normalize hmne hmws hsm
  have hson : SubP ko (normalizeText s.data) := subP_normalize hone hows hso
  have hsun : SubP ku (normalizeText s.data) := subP_normalize hune huws hsu
  obtain ⟨sm, hsmem, hsmsub⟩ := subP_sentence hmne hmnd hmws hsmn
  obtain ⟨so, hsomem, hsosub⟩ := subP_sentence hone hond hows hson
  obtain ⟨su, hsumem, hsusub⟩ := subP_sentence hune hund huws hsun
  have hfm : (ruleHits (splitSentences (normalizeText s.data)) ruleMoney).isEmpty = false :=
    ruleHits_fires hkm hsmem hsmsub
  have hfo : (ruleHits (splitSentences (normalizeText s.data)) ruleOtp).isEmpty = false :=
    ruleHits_fires hko hsomem hsosub
  have hfu : (ruleHits (splitSentences (normalizeText s.data)) ruleUrgency).isEmpty = false :=
    ruleHits_fires (List.mem_append_left KW_THREAT hku) hsumem hsusub
  have hr : 93 ≤ rulesScore (splitSentences (normalizeText s.data)) :=
    rulesScore_lb hfu hfo hfm
  have hb : 60 ≤ ((comboBoosts (normalizeText s.data)
      (extractUrls (normalizeText s.data))).map Prod.snd).sum :=
    boostsSum_lb _ (containsAny_iff.mpr ⟨ko, hko, hson⟩)
      (containsAny_iff.mpr ⟨ku, List.mem_append_left KW_THREAT hku, hsun⟩)
      (containsAny_iff.mpr ⟨km, hkm, hsmn⟩)
  show 95 ≤ rawScoreOf (normalizeText s.data)
  unfold rawScoreOf
  omega

/-- Counterexample for C2 as stated: this text contains transfer-request,
OTP-request and urgency patterns, yet its final risk_score is 82 < 95 (the
raw score 153 is compressed above 100 and no floor exists). -/
theorem C2_counterexample :
    containsAny (S "請立即匯款並提供OTP") KW_MONEY = true
    ∧ containsAny (S "請立即匯款並提供OTP") KW_OTP = true
    ∧ containsAny (S "請立即匯款並提供OTP") KW_URGENCY = true
    ∧ (analyze_text "請立即匯款並提供OTP" 0 0).risk_score = 82
    ∧ ¬ 95 ≤ (analyze_text "請立即匯款並提供OTP" 0 0).risk_score :=
  ⟨by decide, by decide, by decide, by decide, by decide⟩

/-- Witness for C2 (amended) at a concrete text. -/
theorem C2_witness :
    containsAny (S "請立即匯款並提供OTP") KW_MONEY = true
    ∧ 95 ≤ (analyze_text "請立即匯款並提供OTP" 0 0).meta_raw_score :=
  ⟨by decide,
   C2_money_otp_urgency_raw_score "請立即匯款並提供OTP" 0 0
     (by decide) (by decide) (by decide)⟩

/-! ### C3: link-only text -/

/-- C3: evaluating the engine at a text that is exactly one bit.ly-style
shortened link. The URL is extracted and even listed as suspicious, yet the
risk_score is 0, the scam-type set is empty and no rule fires: the shortener
rule cannot match because `.` is a sentence delimiter, so no sentence ever
contains `bit.ly`; and no non-zero policy floor exists. The spec's scenario
(level low/medium with a phishing-link tag and score > 0) fails. -/
theorem C3_shortlink_only_eval :
    (analyze_text "bit.ly/abc123" 0 0).risk_score = 0
    ∧ (analyze_text "bit.ly/abc123" 0 0).scam_types = []
    ∧ (analyze_text "bit.ly/abc123" 0 0).risk_level = S "low"
    ∧ (analyze_text "bit.ly/abc123" 0 0).suspicious_links = [S "bit.ly/abc123"]
    ∧ (analyze_text "bit.ly/abc123" 0 0).triggered_rules = [] :=
  ⟨by decide, by decide, by decide, by decide, by decide⟩

/-! ### C4: determinism -/

/-- C4 (amended): the result is a function of the text alone in every field
except `meta.latency_ms`, which measures the wall clock; there is no other
source of nondeterminism. -/
theorem C4_deterministic_up_to_latency :
    ∀ (s : String) (t0 t1 t0' t1' : Rat),
      clearLatency (analyze_text s t0 t1) = clearLatency (analyze_text s t0' t1') := by
  intro s t0 t1 t0' t1'
  rfl

/-- Counterexample for C4 as stated: two invocations on the identical text at
different wall-clock times differ (in `meta.latency_ms`), so the full returned
structure is not byte-identical and the result is time-dependent. -/
theorem C4_counterexample :
    analyze_text "你好" 0 0 ≠ analyze_text "你好" 0 1 := by
  intro h
  have h1 : (analyze_text "你好" 0 0).meta_latency_ms = 0 := by
    show truncRat ((0 - 0) * 1000) = 0
    norm_num [truncRat]
  have h2 : (analyze_text "你好" 0 1).meta_latency_ms = 1000 := by
    show truncRat ((1 - 0) * 1000) = 1000
    norm_num [truncRat]
  rw [h] at h1
  rw [h1] at h2
  exact absurd h2 (by norm_num)

/-! ### C6: empty or whitespace-only input -/

theorem strip_of_all_ws {l : Str} (h : l.all pyWs = true) : strip l = [] := by
  have hd : l.dropWhile pyWs = [] :=
    List.dropWhile_eq_nil_iff.mpr (fun x hx => List.all_eq_true.mp h x hx)
  simp [strip, hd]

/-- C6: whitespace-only (in particular empty) input yields the minimum-risk
result: score 0, level low, no scam types, no triggered rules, and the
neutral explanation; `analyze_text` is total, so no error is possible. -/
theorem C6_whitespace_minimal_result : ∀ (s : String) (t0 t1 : Rat),
    s.data.all pyWs = true →
    (analyze_text s t0 t1).risk_score = 0
    ∧ (analyze_text s t0 t1).risk_level = S "low"
    ∧ (analyze_text s t0 t1).scam_types = []
    ∧ (analyze_text s t0 t1).triggered_rules = []
    ∧ (analyze_text s t0 t1).explanation
        = S "判斷流程階段：資訊投放\n我看到的重點：\n• 目前沒有明顯高風險特徵，但仍建議用官方管道確認。" := by
  intro s t0 t1 h
  have hnorm : normalizeText s.data = [] := by
    rw [normalizeText, strip_of_all_ws h]
    rfl
  refine ⟨?_, ?_, ?_, ?_, ?_⟩
  · show finalScoreOf (normalizeText s.data) = 0
    rw [hnorm]; decide
  · show finalLevelOf (normalizeText s.data) = S "low"
    rw [hnorm]; decide
  · show scamTypesOf (normalizeText s.data) = []
    rw [hnorm]; decide
  · show triggeredOf (normalizeText s.data) = []
    rw [hnorm]; decide
  · show explanationOf (normalizeText s.data) = _
    rw [hnorm]; decide

/-- Witness for C6 at a concrete whitespace-only text. -/
theorem C6_witness :
    " \t ".data.all pyWs = true
    ∧ (analyze_text " \t " 0 0).risk_score = 0 :=
  ⟨by decide, (C6_whitespace_minimal_result " \t " 0 0 (by decide)).1⟩

/-! ### C5: score bounds, level vocabulary, monotone mapping -/

/-- The four levels the result can carry. -/
def isLevel (lv : Str) : Prop :=
  lv = S "low" ∨ lv = S "medium" ∨ lv = S "high" ∨ lv = S "critical"

theorem levelFromScore_isLevel (sc : Int) : isLevel (levelFromScore sc) := by
  unfold levelFromScore isLevel
  split_ifs <;> simp

theorem mem_ite_singleton {α} {g x : α} {c : Prop} [Decidable c]
    (h : g ∈ (if c then [x] else ([] : List α))) : g = x := by
  split at h <;> simp_all

/-- Every hard gate demands medium, high or critical. -/
theorem gates_snd_mem {t : Str} {urls : List Str} :
    ∀ g ∈ hardGates t urls,
      g.2 = S "medium" ∨ g.2 = S "high" ∨ g.2 = S "critical" := by
  intro g hg
  simp only [hardGates, List.mem_append] at hg
  rcases hg with ((((hg | hg) | hg) | hg) | hg) | hg <;>
    rw [mem_ite_singleton hg] <;> simp

theorem applyMin_cases (lv m : Str) :
    applyMinLevel lv m = lv ∨ applyMinLevel lv m = m := by
  unfold applyMinLevel
  split
  · exact Or.inl rfl
  · exact Or.inr rfl

theorem levelAfterGates_isLevel {gs : List (Str × Str)} {lv : Str}
    (hlv : isLevel lv)
    (hgs : ∀ g ∈ gs, g.2 = S "medium" ∨ g.2 = S "high" ∨ g.2 = S "critical") :
    isLevel (levelAfterGates lv gs) := by
  induction gs generalizing lv with
  | nil => exact hlv
  | cons g gs ih =>
    rw [levelAfterGates_cons]
    refine ih ?_ (fun g' hg' => hgs g' (List.mem_cons_of_mem _ hg'))
    rcases applyMin_cases lv g.2 with h | h
    · rw [h]; exact hlv
    · rw [h]
      rcases hgs g (List.mem_cons_self ..) with h2 | h2 | h2 <;>
        rw [h2] <;> simp [isLevel]

/-- C5: every analysis result has 0 ≤ risk_score ≤ 100 and a risk_level in
the fixed four-level vocabulary; and the score-to-level mapping is
monotonically non-decreasing in the score. -/
theorem C5_bounds_vocabulary_monotone :
    (∀ (s : String) (t0 t1 : Rat),
      0 ≤ (analyze_text s t0 t1).risk_score
      ∧ (analyze_text s t0 t1).risk_score ≤ 100
      ∧ isLevel (analyze_text s t0 t1).risk_level)
    ∧ (∀ a b : Int, a ≤ b →
        levelOrder (levelFromScore a) ≤ levelOrder (levelFromScore b)) := by
  constructor
  · intro s t0 t1
    refine ⟨?_, ?_, ?_⟩
    · show 0 ≤ finalScoreOf (normalizeText s.data)
      unfold finalScoreOf clampI
      exact le_max_left 0 _
    · show finalScoreOf (normalizeText s.data) ≤ 100
      unfold finalScoreOf clampI
      exact max_le (by norm_num) (min_le_left 100 _)
    · show isLevel (finalLevelOf (normalizeText s.data))
      unfold finalLevelOf
      exact levelAfterGates_isLevel (levelFromScore_isLevel _) gates_snd_mem
  · intro a b hab
    unfold levelFromScore
    split_ifs <;> first | decide | (exfalso; omega)

/-- Witness for C5 at a concrete text and score pair. -/
theorem C5_witness :
    0 ≤ (analyze_text "早安" 0 0).risk_score
    ∧ levelOrder (levelFromScore 40) ≤ levelOrder (levelFromScore 90) :=
  ⟨(C5_bounds_vocabulary_monotone.1 "早安" 0 0).1,
   C5_bounds_vocabulary_monotone.2 40 90 (by norm_num)⟩

/-! ### C9: order of the triggered-rules list -/

theorem mem_insertDesc {x z : Triggered} {l : List Triggered} :
    z ∈ insertDesc x l ↔ z = x ∨ z ∈ l := by
  induction l with
  | nil => simp [insertDesc]
  | cons y ys ih =>
    rw [insertDesc]
    split
    · simp only [List.mem_cons, ih]
      tauto
    · simp [List.mem_cons]

theorem insertDesc_pairwise {x : Triggered} {l : List Triggered}
    (h : l.Pairwise (fun a b => b.score ≤ a.score)) :
    (insertDesc x l).Pairwise (fun a b => b.score ≤ a.score) := by
  induction l with
  | nil => simp [insertDesc]
  | cons y ys ih =>
    rw [List.pairwise_cons] at h
    rw [insertDesc]
    split
    · rename_i hgt
      rw [List.pairwise_cons]
      refine ⟨?_, ih h.2⟩
      intro z hz
      rcases mem_insertDesc.mp hz with rfl | hz2
      · omega
      · exact h.1 z hz2
    · rename_i hle
      rw [List.pairwise_cons]
      refine ⟨?_, List.pairwise_cons.mpr h⟩
      intro z hz
      rcases List.mem_cons.mp hz with rfl | hz2
      · omega
      · have := h.1 z hz2
        omega

/-- The sort used for the explanation's top reasons is descending by score. -/
theorem sortDesc_pairwise (l : List Triggered) :
    (sortDesc l).Pairwise (fun a b => b.score ≤ a.score) := by
  induction l with
  | nil => simp [sortDesc]
  | cons x xs ih => exact insertDesc_pairwise ih

/-- C9 (amended): the `triggered_rules` list is NOT sorted by score; it keeps
detection order — rule hits in rule-table order, then combo boosts, then the
gate annotations (which all carry score 0). Only the explanation's top-reason
selection sorts by contributed score, descending. -/
theorem C9_triggered_detection_order :
    (∀ (s : String) (t0 t1 : Rat), ∃ gatePart : List Triggered,
      (analyze_text s t0 t1).triggered_rules
        = ruleTriggered (splitSentences (normalizeText s.data))
          ++ (comboBoosts (normalizeText s.data)
              (extractUrls (normalizeText s.data))).map
              (fun b => ⟨b.1, b.2, evidenceDefault (normalizeText s.data)
                  (splitSentences (normalizeText s.data))⟩)
          ++ (hardGates (normalizeText s.data)
              (extractUrls (normalizeText s.data))).map
              (fun g => ⟨S "門檻：" ++ g.1, 0, evidenceDefault (normalizeText s.data)
                  (splitSentences (normalizeText s.data))⟩)
      ∧ (∀ x ∈ gatePart, x.score = 0)
      ∧ gatePart
        = (hardGates (normalizeText s.data)
            (extractUrls (normalizeText s.data))).map
            (fun g => ⟨S "門檻：" ++ g.1, 0, evidenceDefault (normalizeText s.data)
                (splitSentences (normalizeText s.data))⟩))
    ∧ ∀ l : List Triggered, (sortDesc l).Pairwise (fun a b => b.score ≤ a.score) := by
  constructor
  · intro s t0 t1
    refine ⟨(hardGates (normalizeText s.data)
        (extractUrls (normalizeText s.data))).map
        (fun g => ⟨S "門檻：" ++ g.1, 0, evidenceDefault (normalizeText s.data)
            (splitSentences (normalizeText s.data))⟩), rfl, ?_, rfl⟩
    intro x hx
    obtain ⟨g, hg, rfl⟩ := List.mem_map.mp hx
    rfl
  · exact sortDesc_pairwise

/-- Witness for C9 (amended): the explanation sort is descending on the
concrete triggered list of an OTP text. -/
theorem C9_witness :
    (sortDesc (analyze_text "請提供驗證碼" 0 0).triggered_rules).Pairwise
      (fun a b => b.score ≤ a.score) :=
  C9_triggered_detection_order.2 _

/-- Counterexample for C9 as stated: on this text the triggered list carries
scores [18, 18, 45, 28, 20, 35, 0], which is not descending. -/
theorem C9_counterexample :
    ((analyze_text "請立即提供驗證碼" 0 0).triggered_rules).map Triggered.score
      = [18, 18, 45, 28, 20, 35, 0]
    ∧ ¬ ([18, 18, 45, 28, 20, 35, 0] : List Int).Pairwise (fun a b => b ≤ a) :=
  ⟨by decide, by decide⟩

/-! ### C7: shape of the segmenter output -/

/-- The given parts occur left to right as disjoint contiguous segments of
the text. -/
def ChainIn : Str → List Str → Prop
  | _, [] => True
  | t, p :: ps => ∃ g r, t = g ++ p ++ r ∧ ChainIn r ps

theorem chainIn_prepend {t : Str} {ps : List Str} (x : Str) (h : ChainIn t ps) :
    ChainIn (x ++ t) ps := by
  cases ps with
  | nil => trivial
  | cons p ps =>
    obtain ⟨g, r, rfl, hc⟩ := h
    exact ⟨x ++ g, r, by simp, hc⟩

theorem runsOf_chain : ∀ (n : Nat) (t : Str), t.length ≤ n → ChainIn t (runsOf t) := by
  intro n
  induction n with
  | zero =>
    intro t ht
    rw [List.eq_nil_of_length_eq_zero (Nat.le_zero.mp ht)]
    trivial
  | succ n ih =>
    intro t ht
    rcases t with _ | ⟨c, l⟩
    · trivial
    · cases hc : sentDelim c with
      | true =>
        rw [runsOf_cons_delim hc]
        exact chainIn_prepend [c] (ih l (by simpa using Nat.le_of_succ_le_succ ht))
      | false =>
        rw [runsOf_cons_nd hc]
        refine ⟨[], (c :: l).dropWhile (fun d => !sentDelim d), ?_, ?_⟩
        · rw [List.nil_append]
          exact (List.takeWhile_append_dropWhile (fun d => !sentDelim d) (c :: l)).symm
        · have hdw : (c :: l).dropWhile (fun d => !sentDelim d)
              = l.dropWhile (fun d => !sentDelim d) := by
            simp [List.dropWhile_cons, hc]
          rw [hdw]
          refine ih _ (Nat.le_trans ((List.dropWhile_sublist _).length_le) ?_)
          simpa using Nat.le_of_succ_le_succ ht

theorem chainIn_map_sub {ps : List Str} (f : Str → Str) (hf : ∀ p, SubP (f p) p) :
    ∀ {t : Str}, ChainIn t ps → ChainIn t (ps.map f) := by
  induction ps with
  | nil => intro t _; trivial
  | cons p ps ih =>
    intro t h
    obtain ⟨g, r, rfl, hc⟩ := h
    obtain ⟨u, v, hp⟩ := hf p
    refine ⟨g ++ u, v ++ r, ?_, chainIn_prepend v (ih hc)⟩
    conv_lhs => rw [hp]
    simp [List.append_assoc]

theorem chainIn_filter {ps : List Str} (q : Str → Bool) :
    ∀ {t : Str}, ChainIn t ps → ChainIn t (ps.filter q) := by
  induction ps with
  | nil => intro t _; trivial
  | cons p ps ih =>
    intro t h
    obtain ⟨g, r, rfl, hc⟩ := h
    rw [List.filter_cons]
    cases hq : q p with
    | true =>
      simp only [if_true]
      exact ⟨g, r, rfl, ih hc⟩
    | false =>
      simp only [Bool.false_eq_true, if_false]
      exact chainIn_prepend (g ++ p) (ih hc)

/-- Stripping only removes characters from the two ends. -/
theorem strip_subP (l : Str) : SubP (strip l) l := by
  refine ⟨l.takeWhile pyWs, ((l.dropWhile pyWs).reverse.takeWhile pyWs).reverse, ?_⟩
  conv_lhs => rw [← @List.takeWhile_append_dropWhile _ pyWs l]
  congr 1
  conv_lhs => rw [← List.reverse_reverse (l.dropWhile pyWs),
    ← @List.takeWhile_append_dropWhile _ pyWs (l.dropWhile pyWs).reverse,
    List.reverse_append]
  rfl

/-- Space-joining of the parts merged into one sentence. -/
def joinSpace : List Str → Str
  | [] => []
  | [x] => x
  | x :: y :: r => x ++ ' ' :: joinSpace (y :: r)

theorem joinSpace_append_single {b : List Str} (hb : b ≠ []) (q : Str) :
    joinSpace (b ++ [q]) = joinSpace b ++ ' ' :: q := by
  induction b with
  | nil => exact absurd rfl hb
  | cons x b' ih =>
    cases b' with
    | nil => rfl
    | cons y b'' =>
      have ih' := ih (by simp)
      rw [List.cons_append] at ih'
      show joinSpace (x :: y :: (b'' ++ [q])) = _
      rw [joinSpace, ih', joinSpace]
      simp [List.append_assoc]

/-- The block decomposition performed by the merging loop. -/
def blocksGo (cur : List Str) : List Str → List (List Str)
  | [] => [cur]
  | q :: qs => if q.length ≤ 4 then blocksGo (cur ++ [q]) qs else cur :: blocksGo [q] qs

theorem mergeShort_eq_blocks : ∀ (ps : List Str) (b : List Str), b ≠ [] →
    mergeShort (joinSpace b) ps = (blocksGo b ps).map joinSpace := by
  intro ps
  induction ps with
  | nil =>
    intro b hb
    simp [mergeShort, blocksGo]
  | cons q qs ih =>
    intro b hb
    rw [mergeShort, blocksGo]
    split
    · rw [← joinSpace_append_single hb q, ih (b ++ [q]) (by simp)]
    · rw [show mergeShort q qs = mergeShort (joinSpace [q]) qs from rfl,
        ih [q] (by simp)]
      rfl

theorem blocksGo_flatten : ∀ (ps : List Str) (b : List Str),
    (blocksGo b ps).flatten = b ++ ps := by
  intro ps
  induction ps with
  | nil => intro b; simp [blocksGo]
  | cons q qs ih =>
    intro b
    rw [blocksGo]
    split
    · rw [ih (b ++ [q])]
      simp
    · simp only [List.flatten_cons, ih [q]]
      simp

theorem blocksGo_ne_nil : ∀ (ps : List Str) (b : List Str), b ≠ [] →
    ∀ bl ∈ blocksGo b ps, bl ≠ [] := by
  intro ps
  induction ps with
  | nil =>
    intro b hb bl hbl
    simp only [blocksGo, List.mem_singleton] at hbl
    rw [hbl]; exact hb
  | cons q qs ih =>
    intro b hb bl hbl
    rw [blocksGo] at hbl
    split at hbl
    · exact ih (b ++ [q]) (by simp) bl hbl
    · rcases List.mem_cons.mp hbl with rfl | h2
      · exact hb
      · exact ih [q] (by simp) bl h2

theorem joinSpace_ne_nil {bl : List Str} (hbl : bl ≠ [])
    (hq : ∀ q ∈ bl, q ≠ []) : joinSpace bl ≠ [] := by
  cases bl with
  | nil => exact absurd rfl hbl
  | cons x b' =>
    cases b' with
    | nil => exact hq x (by simp)
    | cons y b'' =>
      rw [joinSpace]
      rcases hx : x with _ | _
      · simp
      · simp

/-- C7 (amended): every emitted sentence is non-empty and is the single-space
join of one or more non-empty contiguous substrings of the input, and across
the whole output those substrings occur disjointly, in input order (the
counterexample shows a sentence need not itself be a contiguous substring:
the merging loop glues short parts with an inserted space). -/
theorem C7_sentences_are_joined_segments : ∀ t : Str, ∃ pss : List (List Str),
    splitSentences t = pss.map joinSpace
    ∧ ChainIn t pss.flatten
    ∧ (∀ bl ∈ pss, bl ≠ [] ∧ ∀ q ∈ bl, q ≠ [])
    ∧ (∀ s ∈ splitSentences t, s ≠ []) := by
  intro t
  rcases hparts : ((runsOf t).map strip).filter (fun p => !p.isEmpty) with _ | ⟨p0, ps⟩
  · by_cases hst : (strip t).isEmpty = true
    · refine ⟨[], ?_, trivial, by simp, ?_⟩
      · simp only [splitSentences]
        rw [hparts]
        simp [hst]
      · intro s hs
        simp only [splitSentences] at hs
        rw [hparts] at hs
        simp [hst] at hs
    · have hsplit : splitSentences t = [strip t] := by
        simp only [splitSentences]
        rw [hparts]
        simp [hst]
      refine ⟨[[strip t]], by simp [hsplit, joinSpace], ?_, ?_, ?_⟩
      · obtain ⟨a, b, hab⟩ := strip_subP t
        exact ⟨a, b, by rw [List.append_assoc]; exact hab, trivial⟩
      · intro bl hbl
        rcases List.mem_singleton.mp hbl with rfl
        refine ⟨by simp, ?_⟩
        intro q hq
        rcases List.mem_singleton.mp hq with rfl
        simpa [List.isEmpty_iff] using hst
      · intro s hs
        rw [hsplit] at hs
        rcases List.mem_singleton.mp hs with rfl
        simpa [List.isEmpty_iff] using hst
  · have hchain : ChainIn t (p0 :: ps) := by
      rw [← hparts]
      exact chainIn_filter _ (chainIn_map_sub strip strip_subP
        (runsOf_chain t.length t (Nat.le_refl _)))
    have hne : ∀ x ∈ p0 :: ps, x ≠ [] := by
      intro x hx
      rw [← hparts] at hx
      have := (List.mem_filter.mp hx).2
      simpa [List.isEmpty_iff] using this
    have hsplit : splitSentences t = mergeShort p0 ps := by
      simp only [splitSentences]
      rw [hparts]
    refine ⟨blocksGo [p0] ps, ?_, ?_, ?_, ?_⟩
    · rw [hsplit, show mergeShort p0 ps = mergeShort (joinSpace [p0]) ps from rfl]
      exact mergeShort_eq_blocks ps [p0] (by simp)
    · rw [blocksGo_flatten]
      exact hchain
    · intro bl hbl
      refine ⟨blocksGo_ne_nil ps [p0] (by simp) bl hbl, ?_⟩
      intro q hq
      refine hne q ?_
      have : q ∈ (blocksGo [p0] ps).flatten := List.mem_flatten.mpr ⟨bl, hbl, hq⟩
      rw [blocksGo_flatten] at this
      exact this
    · intro s hs
      rw [hsplit, show mergeShort p0 ps = mergeShort (joinSpace [p0]) ps from rfl,
        mergeShort_eq_blocks ps [p0] (by simp)] at hs
      obtain ⟨bl, hbl, rfl⟩ := List.mem_map.mp hs
      refine joinSpace_ne_nil (blocksGo_ne_nil ps [p0] (by simp) bl hbl) ?_
      intro q hq
      refine hne q ?_
      have : q ∈ (blocksGo [p0] ps).flatten := List.mem_flatten.mpr ⟨bl, hbl, hq⟩
      rw [blocksGo_flatten] at this
      exact this

/-- Witness for C7 (amended): no emitted sentence of a concrete two-part
text is empty. -/
theorem C7_witness : ∀ s ∈ splitSentences (S "早安。好"), s ≠ [] := by
  intro s hs
  obtain ⟨pss, h1, h2, h3, h4⟩ := C7_sentences_are_joined_segments (S "早安。好")
  exact h4 s hs

/-- Counterexample for C7 as stated: merging makes the single emitted
sentence "hello ok", which is not a contiguous substring of the input
"hello。ok". -/
theorem C7_counterexample :
    splitSentences (S "hello。ok") = [S "hello ok"]
    ∧ ¬ SubP (S "hello ok") (S "hello。ok") := by
  refine ⟨by decide, ?_⟩
  intro h
  exact absurd (subStr_iff.mpr h) (by decide)

/-! ### C8: entity extraction -/

theorem dedupGo_sublist : ∀ (us seen : List Str), List.Sublist (dedupGo seen us) us := by
  intro us
  induction us with
  | nil => intro seen; simp [dedupGo]
  | cons u us ih =>
    intro seen
    rw [dedupGo]
    split
    · exact (ih seen).cons u
    · exact (ih (u :: seen)).cons₂ u

theorem dedupGo_mem {x : Str} : ∀ (us seen : List Str),
    x ∈ dedupGo seen us ↔ x ∈ us ∧ x ∉ seen := by
  intro us
  induction us with
  | nil => intro seen; simp [dedupGo]
  | cons u us ih =>
    intro seen
    rw [dedupGo]
    split
    · rename_i hu
      rw [ih seen]
      constructor
      · rintro ⟨h1, h2⟩
        exact ⟨List.mem_cons_of_mem _ h1, h2⟩
      · rintro ⟨h1, h2⟩
        rcases List.mem_cons.mp h1 with rfl | h3
        · exact absurd hu h2
        · exact ⟨h3, h2⟩
    · rename_i hu
      simp only [List.mem_cons, ih (u :: seen)]
      by_cases hxu : x = u
      · subst hxu
        simp [hu]
      · simp [hxu]

theorem dedupGo_nodup : ∀ (us seen : List Str), (dedupGo seen us).Nodup := by
  intro us
  induction us with
  | nil => intro seen; simp [dedupGo]
  | cons u us ih =>
    intro seen
    rw [dedupGo]
    split
    · exact ih seen
    · rw [List.nodup_cons]
      refine ⟨fun hmem => ?_, ih (u :: seen)⟩
      exact ((dedupGo_mem us (u :: seen)).mp hmem).2 (List.mem_cons_self ..)

/-- C8 (amended): the only entity extraction the engine performs is URL
extraction; its output has no duplicates, is an order-preserving subsequence
of the raw match sequence with exactly the same members (first occurrence
kept), and is empty — not an error — when nothing matches. Phone numbers,
emails and long digit runs are not extracted at all. -/
theorem C8_url_extraction_dedup : ∀ t : Str,
    (extractUrls t).Nodup
    ∧ List.Sublist (extractUrls t) (rawUrls t)
    ∧ (∀ u : Str, u ∈ extractUrls t ↔ u ∈ rawUrls t)
    ∧ (rawUrls t = [] → extractUrls t = []) := by
  intro t
  refine ⟨dedupGo_nodup _ _, dedupGo_sublist _ _, ?_, ?_⟩
  · intro u
    rw [extractUrls, dedupGo_mem]
    simp
  · intro h
    rw [extractUrls, h]
    rfl

/-- Witness for C8 (amended) at a URL-free text. -/
theorem C8_witness :
    extractUrls (S "早安你好") = []
    ∧ ((S "x") ∈ extractUrls (S "早安你好") ↔ (S "x") ∈ rawUrls (S "早安你好")) :=
  ⟨(C8_url_extraction_dedup (S "早安你好")).2.2.2 (by decide),
   (C8_url_extraction_dedup (S "早安你好")).2.2.1 (S "x")⟩

/-- Counterexample for C8 as stated: on a text that is one long digit run
(which the spec's extractor reports), the engine extracts nothing and the
result records nothing — there is no phone/email/long-digit extraction. -/
theorem C8_counterexample :
    specLongDigitRuns (S "0123456789") = [S "0123456789"]
    ∧ extractUrls (S "0123456789") = []
    ∧ (analyze_text "0123456789" 0 0).risk_score = 0
    ∧ (analyze_text "0123456789" 0 0).triggered_rules = []
    ∧ (analyze_text "0123456789" 0 0).meta_url_count = 0 :=
  ⟨by decide, by decide, by decide, by decide, by decide⟩

/-! ### C10: over-100 compression -/

theorem rules_scores_nonneg : ∀ r ∈ RULES, (0 : Int) ≤ r.score := by decide

theorem rulesScore_bounds (sents : List Str) :
    0 ≤ rulesScore sents ∧ rulesScore sents ≤ 304 := by
  constructor
  · refine List.sum_nonneg ?_
    intro x hx
    obtain ⟨r, hr, rfl⟩ := List.mem_map.mp hx
    split
    · exact le_refl 0
    · exact rules_scores_nonneg r hr
  · have h : rulesScore sents ≤ (RULES.map Rule.score).sum := by
      refine List.sum_le_sum ?_
      intro r hr
      split
      · exact rules_scores_nonneg r hr
      · exact le_refl _
    have h2 : (RULES.map Rule.score).sum = 304 := by decide
    omega

theorem boostsSum_bounds (t : Str) (urls : List Str) :
    0 ≤ ((comboBoosts t urls).map Prod.snd).sum
    ∧ ((comboBoosts t urls).map Prod.snd).sum ≤ 250 := by
  simp only [comboBoosts, List.map_append, List.sum_append, mapSnd_ite]
  constructor <;> (split_ifs <;> omega)

theorem rawScore_bounds (t : Str) : 0 ≤ rawScoreOf t ∧ rawScoreOf t ≤ 554 := by
  have h1 := rulesScore_bounds (splitSentences t)
  have h2 := boostsSum_bounds t (extractUrls t)
  unfold rawScoreOf
  omega

theorem fl35_mono_step : ∀ n < 460, fl35 n ≤ fl35 (n + 1) := by decide

theorem fl35_mono_le {m n : Nat} (hmn : m ≤ n) (hn : n ≤ 460) :
    fl35 m ≤ fl35 n := by
  induction n with
  | zero =>
    rw [Nat.le_zero.mp hmn]
  | succ n ih =>
    rcases Nat.lt_or_ge m (n + 1) with h | h
    · exact Nat.le_trans (ih (Nat.lt_succ_iff.mp h) (by omega))
        (fl35_mono_step n (by omega))
    · rw [Nat.le_antisymm hmn h]

theorem fl35_big : ∀ d < 175, 100 ≤ fl35 (286 + d) := by decide

theorem fl35_ge_100 {n : Nat} (h1 : 286 ≤ n) (h2 : n ≤ 460) : 100 ≤ fl35 n := by
  have := fl35_big (n - 286) (by omega)
  rwa [Nat.add_sub_cancel' h1] at this

/-- C10: the over-100 compression is antitone — between two analyses whose
raw sums both exceed 100, the larger raw sum gets the smaller-or-equal final
risk_score; any analysis with raw sum at least 386 gets final risk_score 0;
and concretely a text triggering a strict superset of another text's signals
receives a strictly lower risk_score. -/
theorem C10_compression_antitone :
    (∀ (s1 s2 : String) (t0 t1 t0' t1' : Rat),
      100 < (analyze_text s1 t0 t1).meta_raw_score →
      (analyze_text s1 t0 t1).meta_raw_score < (analyze_text s2 t0' t1').meta_raw_score →
      (analyze_text s2 t0' t1').risk_score ≤ (analyze_text s1 t0 t1).risk_score)
    ∧ (∀ (s : String) (t0 t1 : Rat),
        386 ≤ (analyze_text s t0 t1).meta_raw_score →
        (analyze_text s t0 t1).risk_score = 0)
    ∧ ((∀ nm ∈ ((analyze_text "請立即匯款並提供OTP" 0 0).triggered_rules).map
          Triggered.name,
        nm ∈ ((analyze_text
          "帳戶異常請立即點擊 bit.ly/a 匯款並提供驗證碼，警察包裹投資老師保證獲利入群刷單任務佣金裸聊"
          0 0).triggered_rules).map Triggered.name)
      ∧ (∃ nm ∈ ((analyze_text
          "帳戶異常請立即點擊 bit.ly/a 匯款並提供驗證碼，警察包裹投資老師保證獲利入群刷單任務佣金裸聊"
          0 0).triggered_rules).map Triggered.name,
        nm ∉ ((analyze_text "請立即匯款並提供OTP" 0 0).triggered_rules).map
          Triggered.name)
      ∧ (analyze_text
          "帳戶異常請立即點擊 bit.ly/a 匯款並提供驗證碼，警察包裹投資老師保證獲利入群刷單任務佣金裸聊"
          0 0).risk_score
        < (analyze_text "請立即匯款並提供OTP" 0 0).risk_score) := by
  refine ⟨?_, ?_, by decide, by decide, by decide⟩
  · intro s1 s2 t0 t1 t0' t1' h1 h2
    have hA := rawScore_bounds (normalizeText s1.data)
    have hB := rawScore_bounds (normalizeText s2.data)
    replace h1 : 100 < rawScoreOf (normalizeText s1.data) := h1
    replace h2 : rawScoreOf (normalizeText s1.data)
        < rawScoreOf (normalizeText s2.data) := h2
    show finalScoreOf (normalizeText s2.data) ≤ finalScoreOf (normalizeText s1.data)
    unfold finalScoreOf
    rw [if_pos (by omega : rawScoreOf (normalizeText s2.data) > 100),
      if_pos (by omega : rawScoreOf (normalizeText s1.data) > 100)]
    have hm : (rawScoreOf (normalizeText s1.data) - 100).toNat
        ≤ (rawScoreOf (normalizeText s2.data) - 100).toNat := by omega
    have hbound : (rawScoreOf (normalizeText s2.data) - 100).toNat ≤ 460 := by omega
    have hf := fl35_mono_le hm hbound
    unfold clampI
    omega
  · intro s t0 t1 h
    have hA := rawScore_bounds (normalizeText s.data)
    replace h : 386 ≤ rawScoreOf (normalizeText s.data) := h
    show finalScoreOf (normalizeText s.data) = 0
    unfold finalScoreOf
    rw [if_pos (by omega : rawScoreOf (normalizeText s.data) > 100)]
    have hf := fl35_ge_100
      (n := (rawScoreOf (normalizeText s.data) - 100).toNat)
      (by omega) (by omega)
    unfold clampI
    omega

/-- Witness for C10 at two concrete texts with raw sums 153 and 529. -/
theorem C10_witness :
    100 < (analyze_text "請立即匯款並提供OTP" 0 0).meta_raw_score
    ∧ (analyze_text "請立即匯款並提供OTP" 0 0).meta_raw_score
      < (analyze_text
          "帳戶異常請立即點擊 bit.ly/a 匯款並提供驗證碼，警察包裹投資老師保證獲利入群刷單任務佣金裸聊"
          0 0).meta_raw_score
    ∧ (analyze_text
          "帳戶異常請立即點擊 bit.ly/a 匯款並提供驗證碼，警察包裹投資老師保證獲利入群刷單任務佣金裸聊"
          0 0).risk_score
      ≤ (analyze_text "請立即匯款並提供OTP" 0 0).risk_score
    ∧ (analyze_text
          "帳戶異常請立即點擊 bit.ly/a 匯款並提供驗證碼，警察包裹投資老師保證獲利入群刷單任務佣金裸聊"
          0 0).risk_score = 0 :=
  ⟨by decide, by decide,
   C10_compression_antitone.1 "請立即匯款並提供OTP"
     "帳戶異常請立即點擊 bit.ly/a 匯款並提供驗證碼，警察包裹投資老師保證獲利入群刷單任務佣金裸聊"
     0 0 0 0 (by decide) (by decide),
   C10_compression_antitone.2.1
     "帳戶異常請立即點擊 bit.ly/a 匯款並提供驗證碼，警察包裹投資老師保證獲利入群刷單任務佣金裸聊"
     0 0 (by decide)⟩

end ScamShield
